import Mathlib

/-!
Shallow embedding of the reV supply-curve aggregation engine
(`src/reV/supply_curve/aggregation.py`) and of the SAM simulation
execute error path (`src/reV/SAM/SAM.py`).

Python dictionaries are modelled as association lists with insert-in-place
overwrite semantics (`dictInsert`), which matches CPython's ordered dicts.
Exceptions are modelled with `Except`; the point summarizer
(`SupplyCurvePoint`, external to the sources under verification) is an
abstract field `pointSum` of the environment, returning either a summary
dictionary, the `EmptySupplyCurvePointError` signal, or another exception.
-/

namespace ReV

/-- Values stored in a summary dictionary.  Latitude/longitude floats and
gid lists are carried opaquely; the aggregation code never inspects them. -/
inductive Val where
  | nat : Nat → Val
  | int : Int → Val
  | str : String → Val
  | listNat : List Nat → Val
deriving DecidableEq, Repr

/-- A single SC point summary: Python dict from attribute name to value. -/
abbrev PointSummary := List (String × Val)

/-- The aggregation result: Python dict from SC point gid to its summary. -/
abbrev Dict := List (Nat × PointSummary)

/-- Python `d[k] = v` on an ordered dict: overwrite in place if the key is
present, else append at the end. -/
def dictInsert {κ β : Type} [DecidableEq κ] (d : List (κ × β)) (k : κ) (v : β) :
    List (κ × β) :=
  if k ∈ d.map Prod.fst then d.map (fun p => if p.1 = k then (k, v) else p)
  else d ++ [(k, v)]

/-- Python `d.get(k)`: first (and, for dicts built by `dictInsert`, only)
binding of `k`. -/
def dictLookup {κ β : Type} [DecidableEq κ] : List (κ × β) → κ → Option β
  | [], _ => none
  | p :: rest, k => if p.1 = k then some p.2 else dictLookup rest k

/-- Python `d.update(other)`: insert every binding of `other` into `d`,
in order. -/
def dictUpdate {κ β : Type} [DecidableEq κ] (d other : List (κ × β)) :
    List (κ × β) :=
  other.foldl (fun acc p => dictInsert acc p.1 p.2) d

/-- Outcome of one call to the (external) per-point summarizer:
`empty` is `EmptySupplyCurvePointError`, `exc` any other exception. -/
inductive PtErr where
  | empty : PtErr
  | exc : String → PtErr
deriving DecidableEq, Repr

/-- Python exceptions observable from the aggregation entry point. -/
inductive PyErr where
  | valueError : String → PyErr
  | keyError : String → PyErr
  | pointExc : String → PyErr
  | samError : String → PyErr
deriving DecidableEq, Repr

/-- Environment of one aggregation call: everything the engine reads from
the exclusion raster, the generation store, the tech map and the OS.
`numGids` is `len(sc)` for the SC extent, `cpuCount` is `os.cpu_count()`,
`pointSum` the external `SupplyCurvePointSummary.summary` call for one gid,
`rowInd`/`colInd` the extent lookups `sc[gid]['row_ind']`/`['col_ind']`. -/
structure Env where
  numGids : Nat
  cpuCount : Nat
  pointSum : Nat → Except PtErr PointSummary
  rowInd : Nat → Nat
  colInd : Nat → Nat

/-- Whether the summarizer outcome is a non-empty-signal exception. -/
def isExc : Except PtErr PointSummary → Bool
  | .error (.exc _) => true
  | _ => false

/-- Whether an `Except` result is a success. -/
def isOkE {ε α : Type} : Except ε α → Bool
  | .ok _ => true
  | .error _ => false

namespace SupplyCurvePointSummary

/-- Keys of the `ARGS` dict in `SupplyCurvePointSummary.summary`. -/
def ARGS_keys : List String := ["resource_gids", "gen_gids", "latitude", "longitude"]

/-- The `for arg in args` loop of `SupplyCurvePointSummary.summary`:
recognized args are computed and stored, unrecognized ones are skipped
with a warning (modelled by counting warnings in the second component). -/
def summaryLoop (point : String → Val) :
    List String → PointSummary → Nat → PointSummary × Nat
  | [], s, warns => (s, warns)
  | arg :: rest, s, warns =>
    if arg ∈ ARGS_keys then summaryLoop point rest (dictInsert s arg (point arg)) warns
    else summaryLoop point rest s (warns + 1)

/-- `SupplyCurvePointSummary.summary` arg selection: `args=None` defaults to
all `ARGS` keys.  `point` abstracts the four attribute computations of the
open SC point.  Returns the summary dict and the number of warnings. -/
def summary (point : String → Val) (args : Option (List String)) :
    PointSummary × Nat :=
  summaryLoop point (args.getD ARGS_keys) [] 0

end SupplyCurvePointSummary

/-- The three engine-injected attributes: `pointsum['sc_gid'] = gid` etc.
in `Aggregation._serial_summary`. -/
def injectMeta (env : Env) (gid : Nat) (ps : PointSummary) : PointSummary :=
  dictInsert (dictInsert (dictInsert ps "sc_gid" (.nat gid))
    "sc_row_ind" (.nat (env.rowInd gid))) "sc_col_ind" (.nat (env.colInd gid))

/-- The summary record the engine stores for gid `g`, when `pointSum`
succeeds there; `none` when the point is empty or raises. -/
def pointRecord (env : Env) (g : Nat) : Option PointSummary :=
  match env.pointSum g with
  | .ok ps => some (injectMeta env g ps)
  | .error _ => none

namespace Aggregation

/-- The `for gid in gids` loop of `Aggregation._serial_summary`:
`EmptySupplyCurvePointError` is caught and the gid skipped, any other
exception propagates, a success is stored under the gid. -/
def serialLoop (env : Env) (summary : Dict) : List Nat → Except PyErr Dict
  | [] => .ok summary
  | gid :: rest =>
    match env.pointSum gid with
    | .error .empty => serialLoop env summary rest
    | .error (.exc msg) => .error (.pointExc msg)
    | .ok ps => serialLoop env (dictInsert summary gid (injectMeta env gid ps)) rest

/-- `Aggregation._serial_summary`: `gids=None` resolves to the full extent
`range(len(sc))`. -/
def _serial_summary (env : Env) (gids : Option (List Nat)) : Except PyErr Dict :=
  serialLoop env [] (gids.getD (List.range env.numGids))

/-- Section sizes of `np.array_split(l-element array, n sections)`:
`l % n` sections of size `l / n + 1` followed by sections of size `l / n`. -/
def splitSizes (l n : Nat) : List Nat :=
  List.replicate (l % n) (l / n + 1) ++ List.replicate (n - l % n) (l / n)

/-- Cut a list into consecutive pieces of the given sizes. -/
def splitBySizes {α : Type} (xs : List α) : List Nat → List (List α)
  | [] => []
  | s :: rest => xs.take s :: splitBySizes (xs.drop s) rest

/-- `np.array_split(xs, n)`: raises `ValueError` for `n = 0` (which the
aggregation hits when the gid list is empty), else splits into exactly
`n` contiguous sections. -/
def array_split {α : Type} (xs : List α) (n : Nat) :
    Except PyErr (List (List α)) :=
  if n = 0 then .error (.valueError "number sections must be larger than 0.")
  else .ok (splitBySizes xs (splitSizes xs.length n))

/-- `int(np.ceil(len(gids) / 1000))`: the chunk count. -/
def ceilChunks (l : Nat) : Nat := (l + 999) / 1000

/-- `n_cores = os.cpu_count() if n_cores is None` in `_parallel_summary`. -/
def resolveCores (env : Env) (n_cores : Option Nat) : Nat :=
  n_cores.getD env.cpuCount

/-- The futures-gathering loop of `_parallel_summary`: each chunk runs one
`_serial_summary` (a worker with its own private handles); its result dict
is merged by `summary.update(future.result())`; a worker exception
re-raised by `future.result()` aborts the whole call.  The pool size only
affects scheduling, and chunk gid sets are disjoint, so merging in
submission order models any completion order. -/
def mergeLoop (env : Env) (summary : Dict) : List (List Nat) → Except PyErr Dict
  | [] => .ok summary
  | chunk :: rest =>
    match _serial_summary env (some chunk) with
    | .error e => .error e
    | .ok res => mergeLoop env (dictUpdate summary res) rest

/-- `Aggregation._parallel_summary`: resolve default gids from the extent,
split into `ceil(len(gids)/1000)` chunks, run each chunk and merge. -/
def _parallel_summary (env : Env) (gids : Option (List Nat))
    (n_cores : Option Nat) : Except PyErr Dict :=
  let gs := gids.getD (List.range env.numGids)
  match array_split gs (ceilChunks gs.length) with
  | .error e => .error e
  | .ok chunks => mergeLoop env [] chunks

/-- Dispatch in `Aggregation.summary`: `n_cores == 1` runs the serial path,
anything else (including `None`) the parallel path. -/
def dispatch (env : Env) (gids : Option (List Nat)) (n_cores : Option Nat) :
    Except PyErr Dict :=
  if n_cores = some 1 then _serial_summary env gids
  else _parallel_summary env gids n_cores

/-- Python `c.lower()` for one ASCII character. -/
def lowerChar (c : Char) : Char :=
  if 'A' ≤ c ∧ c ≤ 'Z' then Char.ofNat (c.toNat + 32) else c

/-- The branch condition `'dataframe' in option.lower()` of
`Aggregation.summary`. -/
def wantsDataframe (option : String) : Bool :=
  decide ("dataframe".toList <:+: option.toList.map lowerChar)

/-- The row index `pd.DataFrame(summary).T.set_index('sc_gid')` assigns to
one row: its `sc_gid` entry.  Every row produced by the engine carries a
`Val.nat` at `"sc_gid"`; the fallback 0 is unreachable there. -/
def rowIndex (ps : PointSummary) : Nat :=
  match dictLookup ps "sc_gid" with
  | some (.nat g) => g
  | _ => 0

/-- `set_index('sc_gid', drop=True)` removes the column from the row. -/
def dropKey (ps : PointSummary) (k : String) : PointSummary :=
  ps.filter (fun p => decide (p.1 ≠ k))

/-- Stable ascending insertion by row index (models pandas `sort_index`). -/
def insertRow (x : Nat × PointSummary) :
    List (Nat × PointSummary) → List (Nat × PointSummary)
  | [] => [x]
  | y :: ys => if x.1 ≤ y.1 then x :: y :: ys else y :: insertRow x ys

/-- Ascending sort of the indexed rows (models pandas `sort_index`). -/
def sortRows : List (Nat × PointSummary) → List (Nat × PointSummary)
  | [] => []
  | x :: xs => insertRow x (sortRows xs)

/-- `pd.DataFrame(summary).T.set_index('sc_gid', drop=True).sort_index()`:
`set_index` raises `KeyError` when no row carries an `sc_gid` column (in
particular on the empty frame); otherwise each row is re-keyed by its
`sc_gid` value, the column dropped, and rows sorted ascending by index. -/
def set_index_sort (m : Dict) : Except PyErr (List (Nat × PointSummary)) :=
  if m.all (fun p => (dictLookup p.2 "sc_gid").isNone) then
    .error (.keyError "sc_gid")
  else
    .ok (sortRows (m.map (fun p => (rowIndex p.2, dropKey p.2 "sc_gid"))))

/-- Observable output of `Aggregation.summary`: the merged dict, or the
transposed and sorted table. -/
inductive AggOut where
  | mapping : Dict → AggOut
  | table : List (Nat × PointSummary) → AggOut
deriving DecidableEq, Repr

/-- Trace events of one `Aggregation.summary` call: a `TechMapping.run_map`
invocation, or the start of the serial/parallel phase (the parallel event
records the resolved worker count given to `ProcessPoolExecutor`). -/
inductive Event where
  | buildTechmap : Event
  | dispatchSerial : Event
  | dispatchParallel : Nat → Event
deriving DecidableEq, Repr

deriving instance DecidableEq for Except

/-- Result and event trace of one `Aggregation.summary` call. -/
structure AggRun where
  result : Except PyErr AggOut
  events : List Event
deriving DecidableEq, Repr

/-- `Aggregation.summary`: build the tech map iff `fpath_techmap` does not
exist (`techmapExists`), then dispatch serial (`n_cores == 1`) or parallel,
then convert to a table iff `'dataframe' in option.lower()`. -/
def summary (env : Env) (techmapExists : Bool) (gids : Option (List Nat))
    (n_cores : Option Nat) (option : String) : AggRun :=
  let buildEvents := if techmapExists then [] else [Event.buildTechmap]
  let ev : Event :=
    if n_cores = some 1 then .dispatchSerial
    else .dispatchParallel (resolveCores env n_cores)
  let result : Except PyErr AggOut :=
    match dispatch env gids n_cores with
    | .error e => .error e
    | .ok m =>
      if wantsDataframe option then
        match set_index_sort m with
        | .error e => .error e
        | .ok t => .ok (.table t)
      else .ok (.mapping m)
  ⟨result, buildEvents ++ [ev]⟩

end Aggregation

/-- Projection of a dict-valued result, empty dict on error. -/
def okOr (r : Except PyErr Dict) : Dict :=
  match r with
  | .ok s => s
  | .error _ => []

/-- Lookup of one gid in a dict-valued result. -/
def lookupRes (r : Except PyErr Dict) (k : Nat) : Option PointSummary :=
  dictLookup (okOr r) k

namespace SAM

/-- The parts of the SAM simulation core `execute` reads: `module_exec`
success per module name (`true` iff the C call returns nonzero), and the
engine diagnostic log `module_log module idx` — which the source never
reaches. -/
structure SSC where
  module_exec : String → Bool
  module_log : String → Nat → Option String

/-- The message `'SAM Simulation Error in "{}" for site #{}'` of the
unconditional raise in `SAM.execute`. -/
def execModuleMsg (m : String) (site : Nat) : String :=
  "SAM Simulation Error in \"" ++ m ++ "\" for site #" ++ toString site

/-- The `for m in modules_to_run` loop of `SAM.execute`: on a failed
`module_exec` the `SAMExecutionError` is raised immediately; the
log-collection statements after that raise are dead code, so `module_log`
is never consulted. -/
def execute (ssc : SSC) (site : Nat) : List String → Except PyErr Unit
  | [] => .ok ()
  | m :: rest =>
    if ssc.module_exec m then execute ssc site rest
    else .error (.samError (execModuleMsg m site))

end SAM

section DictLemmas

variable {κ β : Type} [DecidableEq κ]

theorem dictLookup_eq_none {d : List (κ × β)} {k : κ} :
    dictLookup d k = none ↔ k ∉ d.map Prod.fst := by
  induction d with
  | nil => simp [dictLookup]
  | cons p rest ih =>
    by_cases hp : p.1 = k
    · simp [dictLookup, hp]
    · have h1 : ¬ (k = p.1) := fun hh => hp hh.symm
      simp [dictLookup, hp, ih, h1]

theorem dictLookup_map_replace_of_ne {d : List (κ × β)} {k k' : κ} {v : β}
    (h : k' ≠ k) :
    dictLookup (d.map (fun p => if p.1 = k then (k, v) else p)) k'
      = dictLookup d k' := by
  induction d with
  | nil => rfl
  | cons p rest ih =>
    by_cases hp : p.1 = k
    · have h1 : ¬ (k = k') := fun hh => h hh.symm
      have h2 : ¬ (p.1 = k') := by rw [hp]; exact h1
      simp only [List.map_cons, if_pos hp, dictLookup]
      rw [if_neg h1, if_neg h2, ih]
    · simp only [List.map_cons, if_neg hp, dictLookup, ih]

theorem dictLookup_map_replace_self {d : List (κ × β)} {k : κ} {v : β}
    (h : k ∈ d.map Prod.fst) :
    dictLookup (d.map (fun p => if p.1 = k then (k, v) else p)) k = some v := by
  induction d with
  | nil => simp at h
  | cons p rest ih =>
    by_cases hp : p.1 = k
    · simp [List.map_cons, if_pos hp, dictLookup]
    · have h' : k ∈ rest.map Prod.fst := by
        rcases List.mem_cons.mp h with h1 | h1
        · exact (hp h1.symm).elim
        · exact h1
      simp only [List.map_cons, if_neg hp, dictLookup, if_neg hp, ih h']

theorem dictLookup_append_single_of_none {d : List (κ × β)} {k k' : κ} {v : β}
    (h : dictLookup d k' = none) :
    dictLookup (d ++ [(k, v)]) k' = if k = k' then some v else none := by
  induction d with
  | nil => simp [dictLookup]
  | cons p rest ih =>
    have hp : ¬ (p.1 = k') := by
      intro hh
      simp [dictLookup, hh] at h
    have hrest : dictLookup rest k' = none := by
      simpa [dictLookup, hp] using h
    simp only [List.cons_append, dictLookup, if_neg hp]
    exact ih hrest

theorem dictLookup_append_single_of_some {d : List (κ × β)} {k k' : κ} {v w : β}
    (h : dictLookup d k' = some w) :
    dictLookup (d ++ [(k, v)]) k' = some w := by
  induction d with
  | nil => simp [dictLookup] at h
  | cons p rest ih =>
    by_cases hp : p.1 = k'
    · simp only [dictLookup, if_pos hp] at h
      simp only [List.cons_append, dictLookup, if_pos hp]
      exact h
    · simp only [dictLookup, if_neg hp] at h
      simp only [List.cons_append, dictLookup, if_neg hp]
      exact ih h

theorem dictLookup_dictInsert (d : List (κ × β)) (k k' : κ) (v : β) :
    dictLookup (dictInsert d k v) k'
      = if k' = k then some v else dictLookup d k' := by
  unfold dictInsert
  by_cases hmem : k ∈ d.map Prod.fst
  · rw [if_pos hmem]
    by_cases hk : k' = k
    · subst hk
      rw [if_pos rfl, dictLookup_map_replace_self hmem]
    · rw [if_neg hk, dictLookup_map_replace_of_ne hk]
  · rw [if_neg hmem]
    by_cases hk : k' = k
    · subst hk
      have hnone : dictLookup d k' = none := dictLookup_eq_none.mpr hmem
      rw [if_pos rfl, dictLookup_append_single_of_none hnone, if_pos rfl]
    · rw [if_neg hk]
      cases hdk : dictLookup d k' with
      | none =>
        rw [dictLookup_append_single_of_none hdk,
          if_neg (fun hh => hk hh.symm)]
      | some w => rw [dictLookup_append_single_of_some hdk]

theorem keys_dictInsert (d : List (κ × β)) (k : κ) (v : β) :
    (dictInsert d k v).map Prod.fst
      = if k ∈ d.map Prod.fst then d.map Prod.fst
        else d.map Prod.fst ++ [k] := by
  unfold dictInsert
  by_cases hmem : k ∈ d.map Prod.fst
  · rw [if_pos hmem, if_pos hmem, List.map_map]
    refine List.map_congr_left ?_
    intro p _
    by_cases hp : p.1 = k <;> simp [hp]
  · rw [if_neg hmem, if_neg hmem]
    simp

theorem mem_keys_dictInsert {d : List (κ × β)} {k a : κ} {v : β} :
    a ∈ (dictInsert d k v).map Prod.fst ↔ a ∈ d.map Prod.fst ∨ a = k := by
  rw [keys_dictInsert]
  by_cases hmem : k ∈ d.map Prod.fst
  · rw [if_pos hmem]
    constructor
    · exact Or.inl
    · rintro (h | h)
      · exact h
      · exact h ▸ hmem
  · rw [if_neg hmem]
    simp

theorem nodup_keys_dictInsert {d : List (κ × β)} {k : κ} {v : β}
    (h : (d.map Prod.fst).Nodup) : ((dictInsert d k v).map Prod.fst).Nodup := by
  rw [keys_dictInsert]
  by_cases hmem : k ∈ d.map Prod.fst
  · rw [if_pos hmem]; exact h
  · rw [if_neg hmem]
    simp [List.nodup_append, h, hmem]

theorem mem_dictInsert {d : List (κ × β)} {k : κ} {v : β} {p : κ × β}
    (h : p ∈ dictInsert d k v) : p ∈ d ∨ p = (k, v) := by
  unfold dictInsert at h
  by_cases hmem : k ∈ d.map Prod.fst
  · rw [if_pos hmem] at h
    obtain ⟨q, hq, hfq⟩ := List.mem_map.mp h
    by_cases hqk : q.1 = k
    · right
      rw [if_pos hqk] at hfq
      exact hfq.symm
    · left
      rw [if_neg hqk] at hfq
      exact hfq ▸ hq
  · rw [if_neg hmem] at h
    simpa using h

theorem dictLookup_some_mem {d : List (κ × β)} {k : κ} {v : β}
    (h : dictLookup d k = some v) : (k, v) ∈ d := by
  induction d with
  | nil => simp [dictLookup] at h
  | cons p rest ih =>
    by_cases hp : p.1 = k
    · simp only [dictLookup, if_pos hp, Option.some.injEq] at h
      have hpv : p = (k, v) := by
        cases p
        simp_all
      rw [← hpv]
      exact List.mem_cons_self _ _
    · simp only [dictLookup, if_neg hp] at h
      exact List.mem_cons_of_mem _ (ih h)

theorem dictUpdate_cons (d : List (κ × β)) (p : κ × β) (rest : List (κ × β)) :
    dictUpdate d (p :: rest) = dictUpdate (dictInsert d p.1 p.2) rest := rfl

theorem dictLookup_dictUpdate_of_none {other : List (κ × β)} {k : κ}
    (h : dictLookup other k = none) (d : List (κ × β)) :
    dictLookup (dictUpdate d other) k = dictLookup d k := by
  induction other generalizing d with
  | nil => rfl
  | cons p rest ih =>
    have hp : ¬ (p.1 = k) := by
      intro hh
      simp [dictLookup, hh] at h
    have hrest : dictLookup rest k = none := by
      simpa [dictLookup, hp] using h
    rw [dictUpdate_cons, ih hrest, dictLookup_dictInsert,
      if_neg (fun hh => hp hh.symm)]

theorem dictLookup_dictUpdate_of_some {other : List (κ × β)} {k : κ} {v : β}
    (hnd : (other.map Prod.fst).Nodup) (h : dictLookup other k = some v)
    (d : List (κ × β)) :
    dictLookup (dictUpdate d other) k = some v := by
  induction other generalizing d with
  | nil => simp [dictLookup] at h
  | cons p rest ih =>
    simp only [List.map_cons, List.nodup_cons] at hnd
    by_cases hp : p.1 = k
    · have hv : some p.2 = some v := by simpa [dictLookup, hp] using h
      have hrest : dictLookup rest k = none :=
        dictLookup_eq_none.mpr (hp ▸ hnd.1)
      rw [dictUpdate_cons, dictLookup_dictUpdate_of_none hrest,
        dictLookup_dictInsert, if_pos hp.symm]
      exact hv
    · have hrest : dictLookup rest k = some v := by
        simpa [dictLookup, hp] using h
      rw [dictUpdate_cons]
      exact ih hnd.2 hrest _

theorem nodup_keys_dictUpdate {other : List (κ × β)} (d : List (κ × β))
    (h : (d.map Prod.fst).Nodup) :
    ((dictUpdate d other).map Prod.fst).Nodup := by
  induction other generalizing d with
  | nil => exact h
  | cons p rest ih =>
    rw [dictUpdate_cons]
    exact ih _ (nodup_keys_dictInsert h)

end DictLemmas

section SerialLemmas

theorem injectMeta_lookup_sc_gid (env : Env) (gid : Nat) (ps : PointSummary) :
    dictLookup (injectMeta env gid ps) "sc_gid" = some (.nat gid) := by
  unfold injectMeta
  rw [dictLookup_dictInsert, if_neg (by decide), dictLookup_dictInsert,
    if_neg (by decide), dictLookup_dictInsert, if_pos rfl]

theorem exc_tail {env : Env} {g : Nat} {rest : List Nat}
    (hexc : ∃ x ∈ g :: rest, isExc (env.pointSum x) = true)
    (hg : isExc (env.pointSum g) = false) :
    ∃ x ∈ rest, isExc (env.pointSum x) = true := by
  obtain ⟨x, hx, hxe⟩ := hexc
  rcases List.mem_cons.mp hx with h1 | h1
  · exact absurd (h1 ▸ hxe) (by simp [hg])
  · exact ⟨x, h1, hxe⟩

theorem serialLoop_spec (env : Env) (gids : List Nat) (acc : Dict)
    (hok : ∀ g ∈ gids, isExc (env.pointSum g) = false) :
    ∃ s, Aggregation.serialLoop env acc gids = .ok s
      ∧ (∀ k, dictLookup s k =
          if k ∈ gids ∧ (pointRecord env k).isSome then pointRecord env k
          else dictLookup acc k)
      ∧ ((acc.map Prod.fst).Nodup → (s.map Prod.fst).Nodup)
      ∧ (∀ p ∈ s, p ∈ acc ∨ dictLookup p.2 "sc_gid" = some (.nat p.1)) := by
  induction gids generalizing acc with
  | nil =>
    refine ⟨acc, rfl, ?_, fun h => h, fun p hp => Or.inl hp⟩
    intro k
    simp
  | cons g rest ih =>
    have hrest : ∀ x ∈ rest, isExc (env.pointSum x) = false :=
      fun x hx => hok x (List.mem_cons_of_mem _ hx)
    cases hps : env.pointSum g with
    | error e =>
      cases e with
      | empty =>
        obtain ⟨s, hs, hlook, hnd, hent⟩ := ih acc hrest
        refine ⟨s, by simp [Aggregation.serialLoop, hps, hs], ?_, hnd,
          fun p hp => hent p hp⟩
        intro k
        rw [hlook k]
        by_cases hk : k ∈ rest ∧ (pointRecord env k).isSome
        · rw [if_pos hk, if_pos ⟨List.mem_cons_of_mem _ hk.1, hk.2⟩]
        · rw [if_neg hk, if_neg ?_]
          intro hcon
          rcases List.mem_cons.mp hcon.1 with h1 | h1
          · exact absurd hcon.2 (by simp [h1, pointRecord, hps])
          · exact hk ⟨h1, hcon.2⟩
      | exc msg => exact absurd (hok g (List.mem_cons_self _ _)) (by simp [isExc, hps])
    | ok ps =>
      obtain ⟨s, hs, hlook, hnd, hent⟩ :=
        ih (dictInsert acc g (injectMeta env g ps)) hrest
      refine ⟨s, by simp [Aggregation.serialLoop, hps, hs], ?_, ?_, ?_⟩
      · intro k
        rw [hlook k]
        by_cases hk : k ∈ rest ∧ (pointRecord env k).isSome
        · rw [if_pos hk, if_pos ⟨List.mem_cons_of_mem _ hk.1, hk.2⟩]
        · rw [if_neg hk, dictLookup_dictInsert]
          by_cases hkg : k = g
          · subst hkg
            have hrec : pointRecord env k = some (injectMeta env k ps) := by
              simp [pointRecord, hps]
            rw [if_pos rfl, if_pos ⟨List.mem_cons_self _ _, by simp [hrec]⟩, hrec]
          · rw [if_neg hkg, if_neg ?_]
            intro hcon
            rcases List.mem_cons.mp hcon.1 with h1 | h1
            · exact hkg h1
            · exact hk ⟨h1, hcon.2⟩
      · intro hndacc
        exact hnd (nodup_keys_dictInsert hndacc)
      · intro p hp
        rcases hent p hp with h1 | h1
        · rcases mem_dictInsert h1 with h2 | h2
          · exact Or.inl h2
          · right
            rw [h2]
            exact injectMeta_lookup_sc_gid env g ps
        · exact Or.inr h1

theorem serialLoop_err (env : Env) (gids : List Nat) (acc : Dict)
    (hexc : ∃ g ∈ gids, isExc (env.pointSum g) = true) :
    ∃ msg, Aggregation.serialLoop env acc gids = .error (.pointExc msg) := by
  induction gids generalizing acc with
  | nil => simp at hexc
  | cons g rest ih =>
    cases hps : env.pointSum g with
    | error e =>
      cases e with
      | empty =>
        obtain ⟨msg, hmsg⟩ := ih acc (exc_tail hexc (by simp [isExc, hps]))
        exact ⟨msg, by simp [Aggregation.serialLoop, hps, hmsg]⟩
      | exc msg => exact ⟨msg, by simp [Aggregation.serialLoop, hps]⟩
    | ok ps =>
      obtain ⟨msg, hmsg⟩ :=
        ih (dictInsert acc g (injectMeta env g ps))
          (exc_tail hexc (by simp [isExc, hps]))
      exact ⟨msg, by simp [Aggregation.serialLoop, hps, hmsg]⟩

end SerialLemmas

section ChunkLemmas

theorem splitSizes_sum {l n : Nat} (hn : 0 < n) :
    (Aggregation.splitSizes l n).sum = l := by
  unfold Aggregation.splitSizes
  rw [List.sum_append, List.sum_replicate, List.sum_replicate]
  simp only [smul_eq_mul]
  have hmod : l % n < n := Nat.mod_lt _ hn
  have hdm : n * (l / n) + l % n = l := Nat.div_add_mod l n
  set q := l / n
  set r := l % n
  have h1 : r + (n - r) = n := by omega
  calc r * (q + 1) + (n - r) * q = (r + (n - r)) * q + r := by ring
    _ = n * q + r := by rw [h1]
    _ = l := by omega

theorem splitSizes_length {l n : Nat} (hn : 0 < n) :
    (Aggregation.splitSizes l n).length = n := by
  unfold Aggregation.splitSizes
  have hmod : l % n < n := Nat.mod_lt _ hn
  simp only [List.length_append, List.length_replicate]
  omega

theorem splitBySizes_flatten {α : Type} (xs : List α) (sizes : List Nat) :
    (Aggregation.splitBySizes xs sizes).flatten = xs.take sizes.sum := by
  induction sizes generalizing xs with
  | nil => simp [Aggregation.splitBySizes]
  | cons s rest ih =>
    simp only [Aggregation.splitBySizes, List.flatten_cons, ih, List.sum_cons]
    rw [List.take_add]

theorem splitBySizes_length {α : Type} (xs : List α) (sizes : List Nat) :
    (Aggregation.splitBySizes xs sizes).length = sizes.length := by
  induction sizes generalizing xs with
  | nil => rfl
  | cons s rest ih => simp [Aggregation.splitBySizes, ih]

theorem splitBySizes_chunk_le {α : Type} {xs : List α} {sizes : List Nat}
    {c : List α} {bound : Nat} (hc : c ∈ Aggregation.splitBySizes xs sizes)
    (hs : ∀ s ∈ sizes, s ≤ bound) : c.length ≤ bound := by
  induction sizes generalizing xs with
  | nil => simp [Aggregation.splitBySizes] at hc
  | cons s rest ih =>
    simp only [Aggregation.splitBySizes, List.mem_cons] at hc
    rcases hc with h1 | h1
    · rw [h1]
      calc (xs.take s).length ≤ s := by
            rw [List.length_take]; exact Nat.min_le_left _ _
        _ ≤ bound := hs s (List.mem_cons_self _ _)
    · exact ih h1 (fun x hx => hs x (List.mem_cons_of_mem _ hx))

theorem ceilChunks_pos {l : Nat} (hl : 0 < l) : 0 < Aggregation.ceilChunks l := by
  unfold Aggregation.ceilChunks
  omega

theorem splitSizes_le_1000 {l : Nat} (hl : 0 < l) :
    ∀ s ∈ Aggregation.splitSizes l (Aggregation.ceilChunks l), s ≤ 1000 := by
  intro s hs
  have hub : l ≤ 1000 * Aggregation.ceilChunks l := by
    unfold Aggregation.ceilChunks
    omega
  set n := Aggregation.ceilChunks l with hn
  have hnpos : 0 < n := ceilChunks_pos hl
  have hq : l / n ≤ 1000 := by
    calc l / n ≤ 1000 * n / n := Nat.div_le_div_right hub
      _ = 1000 := Nat.mul_div_cancel _ hnpos
  unfold Aggregation.splitSizes at hs
  rcases List.mem_append.mp hs with h1 | h1
  · obtain ⟨hrne, hseq⟩ := List.mem_replicate.mp h1
    rcases Nat.lt_or_ge (l / n) 1000 with hlt | hge
    · rw [hseq]
      exact Nat.succ_le_of_lt hlt
    · have h1000 : 1000 * n ≤ l := (Nat.le_div_iff_mul_le hnpos).mp hge
      have hleq : l = 1000 * n := le_antisymm hub h1000
      have hz : l % n = 0 := by
        rw [hleq]
        exact Nat.mul_mod_left _ _
      exact absurd hz hrne
  · obtain ⟨-, hseq⟩ := List.mem_replicate.mp h1
    rw [hseq]
    exact hq

theorem array_split_spec {α : Type} (xs : List α) {n : Nat} (hn : 0 < n) :
    Aggregation.array_split xs n
      = .ok (Aggregation.splitBySizes xs (Aggregation.splitSizes xs.length n))
      ∧ (Aggregation.splitBySizes xs (Aggregation.splitSizes xs.length n)).length = n
      ∧ (Aggregation.splitBySizes xs (Aggregation.splitSizes xs.length n)).flatten
          = xs := by
  refine ⟨?_, ?_, ?_⟩
  · unfold Aggregation.array_split
    rw [if_neg (by omega)]
  · rw [splitBySizes_length, splitSizes_length hn]
  · rw [splitBySizes_flatten, splitSizes_sum hn, List.take_length]

end ChunkLemmas

section MergeLemmas

theorem mergeLoop_spec (env : Env) (chunks : List (List Nat)) (acc : Dict)
    (hok : ∀ g ∈ chunks.flatten, isExc (env.pointSum g) = false) :
    ∃ p, Aggregation.mergeLoop env acc chunks = .ok p
      ∧ (∀ k, dictLookup p k =
          if k ∈ chunks.flatten ∧ (pointRecord env k).isSome then pointRecord env k
          else dictLookup acc k)
      ∧ ((acc.map Prod.fst).Nodup → (p.map Prod.fst).Nodup) := by
  induction chunks generalizing acc with
  | nil => exact ⟨acc, rfl, fun k => by simp, fun h => h⟩
  | cons c rest ih =>
    have hcok : ∀ g ∈ c, isExc (env.pointSum g) = false :=
      fun g hg => hok g (by simp [hg])
    have hrok : ∀ g ∈ rest.flatten, isExc (env.pointSum g) = false :=
      fun g hg => hok g (by simp [hg])
    obtain ⟨w, hw, hwlook, hwnd, -⟩ := serialLoop_spec env c [] hcok
    have hwlook' : ∀ k, dictLookup w k =
        if k ∈ c ∧ (pointRecord env k).isSome then pointRecord env k
        else none := by
      intro k
      rw [hwlook k]
      rfl
    have hwnd' : (w.map Prod.fst).Nodup := hwnd (by simp)
    have hser : Aggregation._serial_summary env (some c) = .ok w := hw
    have hstep : Aggregation.mergeLoop env acc (c :: rest)
        = Aggregation.mergeLoop env (dictUpdate acc w) rest := by
      simp [Aggregation.mergeLoop, hser]
    obtain ⟨p, hp, hplook, hpnd⟩ := ih (dictUpdate acc w) hrok
    refine ⟨p, by rw [hstep]; exact hp, ?_, ?_⟩
    · intro k
      rw [hplook k]
      by_cases hk : k ∈ rest.flatten ∧ (pointRecord env k).isSome
      · rw [if_pos hk, if_pos ⟨by simp [hk.1], hk.2⟩]
      · rw [if_neg hk]
        by_cases hkc : k ∈ c ∧ (pointRecord env k).isSome
        · obtain ⟨rec, hrec⟩ := Option.isSome_iff_exists.mp hkc.2
          have hwl : dictLookup w k = some rec := by
            rw [hwlook' k, if_pos hkc, hrec]
          rw [dictLookup_dictUpdate_of_some hwnd' hwl,
            if_pos ⟨by simp [hkc.1], hkc.2⟩, hrec]
        · have hwl : dictLookup w k = none := by
            rw [hwlook' k, if_neg hkc]
          rw [dictLookup_dictUpdate_of_none hwl, if_neg ?_]
          intro hcon
          obtain ⟨hcon1, hcon2⟩ := hcon
          rw [List.flatten_cons] at hcon1
          rcases List.mem_append.mp hcon1 with h1 | h1
          · exact hkc ⟨h1, hcon2⟩
          · exact hk ⟨h1, hcon2⟩
    · intro hnd
      exact hpnd (nodup_keys_dictUpdate _ hnd)

theorem mergeLoop_err (env : Env) (chunks : List (List Nat)) (acc : Dict)
    (hexc : ∃ g ∈ chunks.flatten, isExc (env.pointSum g) = true) :
    ∃ e, Aggregation.mergeLoop env acc chunks = .error e := by
  induction chunks generalizing acc with
  | nil => simp at hexc
  | cons c rest ih =>
    by_cases hc : ∃ g ∈ c, isExc (env.pointSum g) = true
    · obtain ⟨msg, hmsg⟩ := serialLoop_err env c [] hc
      have hser : Aggregation._serial_summary env (some c)
          = .error (.pointExc msg) := hmsg
      exact ⟨.pointExc msg, by simp [Aggregation.mergeLoop, hser]⟩
    · push_neg at hc
      have hcok : ∀ g ∈ c, isExc (env.pointSum g) = false := by
        intro g hg
        simpa using hc g hg
      obtain ⟨w, hw, -, -, -⟩ := serialLoop_spec env c [] hcok
      have hser : Aggregation._serial_summary env (some c) = .ok w := hw
      have hrexc : ∃ g ∈ rest.flatten, isExc (env.pointSum g) = true := by
        obtain ⟨g, hg, hge⟩ := hexc
        rw [List.flatten_cons] at hg
        rcases List.mem_append.mp hg with h1 | h1
        · exact absurd hge (by simp [hcok g h1])
        · exact ⟨g, h1, hge⟩
      obtain ⟨e, he⟩ := ih (dictUpdate acc w) hrexc
      exact ⟨e, by simp [Aggregation.mergeLoop, hser, he]⟩

theorem serial_spec (env : Env) (gs : List Nat)
    (hok : ∀ g ∈ gs, isExc (env.pointSum g) = false) :
    ∃ s, Aggregation._serial_summary env (some gs) = .ok s
      ∧ (∀ k, dictLookup s k =
          if k ∈ gs ∧ (pointRecord env k).isSome then pointRecord env k else none)
      ∧ (s.map Prod.fst).Nodup
      ∧ (∀ p ∈ s, dictLookup p.2 "sc_gid" = some (.nat p.1)) := by
  obtain ⟨s, hs, hlook, hnd, hent⟩ := serialLoop_spec env gs [] hok
  refine ⟨s, hs, fun k => by rw [hlook k]; rfl, hnd (by simp), ?_⟩
  intro p hp
  rcases hent p hp with h | h
  · simp at h
  · exact h

theorem parallel_spec (env : Env) (gs : List Nat) (n_cores : Option Nat)
    (hne : gs ≠ []) (hok : ∀ g ∈ gs, isExc (env.pointSum g) = false) :
    ∃ p, Aggregation._parallel_summary env (some gs) n_cores = .ok p
      ∧ (∀ k, dictLookup p k =
          if k ∈ gs ∧ (pointRecord env k).isSome then pointRecord env k else none)
      ∧ (p.map Prod.fst).Nodup := by
  have hlpos : 0 < gs.length := List.length_pos.mpr hne
  have hnpos : 0 < Aggregation.ceilChunks gs.length := ceilChunks_pos hlpos
  obtain ⟨hsplit, hlen, hflat⟩ := array_split_spec gs hnpos
  obtain ⟨p, hp, hplook, hpnd⟩ := mergeLoop_spec env _ []
    (fun g hg => hok g (hflat ▸ hg))
  refine ⟨p, ?_, ?_, hpnd (by simp)⟩
  · unfold Aggregation._parallel_summary
    simp only [Option.getD_some]
    rw [hsplit]
    exact hp
  · intro k
    rw [hplook k, hflat]
    rfl

theorem parallel_err (env : Env) (gs : List Nat) (n_cores : Option Nat)
    (hexc : ∃ g ∈ gs, isExc (env.pointSum g) = true) :
    ∃ e, Aggregation._parallel_summary env (some gs) n_cores = .error e := by
  have hne : gs ≠ [] := by
    rintro rfl
    simp at hexc
  have hlpos : 0 < gs.length := List.length_pos.mpr hne
  have hnpos : 0 < Aggregation.ceilChunks gs.length := ceilChunks_pos hlpos
  obtain ⟨hsplit, hlen, hflat⟩ := array_split_spec gs hnpos
  obtain ⟨e, he⟩ := mergeLoop_err env _ [] (hflat ▸ hexc)
  refine ⟨e, ?_⟩
  unfold Aggregation._parallel_summary
  simp only [Option.getD_some]
  rw [hsplit]
  exact he

end MergeLemmas

section SortLemmas

theorem insertRow_perm (x : Nat × PointSummary) (l : List (Nat × PointSummary)) :
    (Aggregation.insertRow x l).Perm (x :: l) := by
  induction l with
  | nil => exact List.Perm.refl _
  | cons y ys ih =>
    unfold Aggregation.insertRow
    by_cases h : x.1 ≤ y.1
    · rw [if_pos h]
    · rw [if_neg h]
      exact (List.Perm.cons y ih).trans (List.Perm.swap x y ys)

theorem sortRows_perm (l : List (Nat × PointSummary)) :
    (Aggregation.sortRows l).Perm l := by
  induction l with
  | nil => exact List.Perm.refl _
  | cons x xs ih =>
    exact (insertRow_perm x (Aggregation.sortRows xs)).trans (List.Perm.cons x ih)

theorem sorted_insertRow {x : Nat × PointSummary} {l : List (Nat × PointSummary)}
    (h : l.Pairwise (fun a b => a.1 ≤ b.1)) :
    (Aggregation.insertRow x l).Pairwise (fun a b => a.1 ≤ b.1) := by
  induction l with
  | nil => simp [Aggregation.insertRow]
  | cons y ys ih =>
    rw [List.pairwise_cons] at h
    unfold Aggregation.insertRow
    by_cases hxy : x.1 ≤ y.1
    · rw [if_pos hxy, List.pairwise_cons]
      constructor
      · intro z hz
        rcases List.mem_cons.mp hz with h1 | h1
        · rw [h1]
          exact hxy
        · exact le_trans hxy (h.1 z h1)
      · rw [List.pairwise_cons]
        exact h
    · rw [if_neg hxy, List.pairwise_cons]
      constructor
      · intro z hz
        rcases List.mem_cons.mp ((insertRow_perm x ys).mem_iff.mp hz) with h1 | h1
        · rw [h1]
          exact le_of_not_le hxy
        · exact h.1 z h1
      · exact ih h.2

theorem sorted_sortRows (l : List (Nat × PointSummary)) :
    (Aggregation.sortRows l).Pairwise (fun a b => a.1 ≤ b.1) := by
  induction l with
  | nil => simp [Aggregation.sortRows]
  | cons x xs ih => exact sorted_insertRow ih

end SortLemmas

section SummaryHelpers

theorem dispatch_serial (env : Env) (gids : Option (List Nat)) :
    Aggregation.dispatch env gids (some 1) = Aggregation._serial_summary env gids := by
  simp [Aggregation.dispatch]

theorem dispatch_other (env : Env) (gids : Option (List Nat)) {n_cores : Option Nat}
    (h : n_cores ≠ some 1) :
    Aggregation.dispatch env gids n_cores
      = Aggregation._parallel_summary env gids n_cores := by
  simp [Aggregation.dispatch, h]

theorem summary_events (env : Env) (tm : Bool) (gids : Option (List Nat))
    (n_cores : Option Nat) (opt : String) :
    (Aggregation.summary env tm gids n_cores opt).events
      = (if tm then [] else [Aggregation.Event.buildTechmap])
        ++ [if n_cores = some 1 then Aggregation.Event.dispatchSerial
            else Aggregation.Event.dispatchParallel
              (Aggregation.resolveCores env n_cores)] := rfl

theorem summary_result_of_dispatch_err {env : Env} {tm : Bool}
    {gids : Option (List Nat)} {n_cores : Option Nat} {opt : String} {e : PyErr}
    (h : Aggregation.dispatch env gids n_cores = .error e) :
    (Aggregation.summary env tm gids n_cores opt).result = .error e := by
  simp [Aggregation.summary, h]

theorem summary_result_df {env : Env} {tm : Bool} {gids : Option (List Nat)}
    {n_cores : Option Nat} {opt : String} {m : Dict}
    (h : Aggregation.dispatch env gids n_cores = .ok m)
    (hdf : Aggregation.wantsDataframe opt = true) :
    (Aggregation.summary env tm gids n_cores opt).result
      = match Aggregation.set_index_sort m with
        | .error e => .error e
        | .ok t => .ok (.table t) := by
  simp [Aggregation.summary, h, hdf]

theorem summary_result_mapping {env : Env} {tm : Bool} {gids : Option (List Nat)}
    {n_cores : Option Nat} {opt : String} {m : Dict}
    (h : Aggregation.dispatch env gids n_cores = .ok m)
    (hdf : Aggregation.wantsDataframe opt = false) :
    (Aggregation.summary env tm gids n_cores opt).result = .ok (.mapping m) := by
  simp [Aggregation.summary, h, hdf]

end SummaryHelpers

/-- Concrete test environment: six SC points, gid 3 is an empty SC point,
all others summarize successfully. -/
def env0 : Env where
  numGids := 6
  cpuCount := 8
  pointSum := fun g =>
    if g = 3 then .error .empty else .ok [("latitude", .nat g)]
  rowInd := fun g => g / 2
  colInd := fun g => g % 2

/-- Concrete test environment where gid 1 raises a non-empty-signal
exception from the summarizer. -/
def env1 : Env where
  numGids := 4
  cpuCount := 8
  pointSum := fun g =>
    if g = 1 then .error (.exc "h5 read failure") else .ok [("latitude", .nat g)]
  rowInd := fun g => g
  colInd := fun _ => 0

/-- Concrete attribute valuation for the point summarizer. -/
def point0 : String → Val := fun a => .str a

/-- C1: for a fixed non-empty gid set on which no point summary raises a
hard exception, `n_cores = 1` (serial path) and `n_cores = 4` (parallel
path: chunking, per-chunk serial summaries, merge) produce the same
included-gid set and identical per-gid summary values; `n_cores == 1`
selects the serial dispatch, any other value the parallel dispatch, and
`n_cores = None` resolves the worker count to `os.cpu_count()`. -/
theorem serial_parallel_equivalence (env : Env) (gs : List Nat) (tm : Bool)
    (opt : String) (hne : gs ≠ [])
    (hok : ∀ g ∈ gs, isExc (env.pointSum g) = false) :
    isOkE (Aggregation._serial_summary env (some gs)) = true
    ∧ isOkE (Aggregation._parallel_summary env (some gs) (some 4)) = true
    ∧ (∀ k, lookupRes (Aggregation._parallel_summary env (some gs) (some 4)) k
        = lookupRes (Aggregation._serial_summary env (some gs)) k)
    ∧ (∀ k, k ∈ (okOr (Aggregation._parallel_summary env (some gs) (some 4))).map Prod.fst
        ↔ k ∈ (okOr (Aggregation._serial_summary env (some gs))).map Prod.fst)
    ∧ (Aggregation.summary env tm (some gs) (some 1) opt).events
        = (if tm then [] else [Aggregation.Event.buildTechmap])
          ++ [Aggregation.Event.dispatchSerial]
    ∧ (Aggregation.summary env tm (some gs) (some 4) opt).events
        = (if tm then [] else [Aggregation.Event.buildTechmap])
          ++ [Aggregation.Event.dispatchParallel 4]
    ∧ (Aggregation.summary env tm (some gs) none opt).events
        = (if tm then [] else [Aggregation.Event.buildTechmap])
          ++ [Aggregation.Event.dispatchParallel env.cpuCount] := by
  obtain ⟨s, hs, hslook, -, -⟩ := serial_spec env gs hok
  obtain ⟨p, hp, hplook, -⟩ := parallel_spec env gs (some 4) hne hok
  have hsame : ∀ k, dictLookup p k = dictLookup s k := by
    intro k
    rw [hplook k, hslook k]
  refine ⟨by rw [hs]; rfl, by rw [hp]; rfl, ?_, ?_, ?_, ?_, ?_⟩
  · intro k
    unfold lookupRes okOr
    rw [hs, hp]
    exact hsame k
  · intro k
    unfold okOr
    rw [hs, hp]
    rw [← not_iff_not, ← dictLookup_eq_none, ← dictLookup_eq_none, hsame k]
  · rw [summary_events]
    simp
  · rw [summary_events]
    simp [Aggregation.resolveCores]
  · rw [summary_events]
    simp [Aggregation.resolveCores]

/-- Witness for C1 at a concrete environment and gid set. -/
theorem serial_parallel_equivalence_witness :
    isOkE (Aggregation._serial_summary env0 (some [0, 1, 2, 3])) = true
    ∧ lookupRes (Aggregation._parallel_summary env0 (some [0, 1, 2, 3]) (some 4)) 2
      = lookupRes (Aggregation._serial_summary env0 (some [0, 1, 2, 3])) 2 := by
  have h := serial_parallel_equivalence env0 [0, 1, 2, 3] true "dict"
    (by decide) (by decide)
  exact ⟨h.1, h.2.2.1 2⟩

/-- C2: for any non-empty gid list, the parallel chunking produces exactly
`ceil(len(gids)/1000)` contiguous chunks, each of at most 1000 gids, whose
concatenation is exactly the input list; for duplicate-free input the
chunks are pairwise disjoint (no gid duplicated or lost). -/
theorem chunk_partition (gs : List Nat) (hne : gs ≠ []) :
    ∃ chunks,
      Aggregation.array_split gs (Aggregation.ceilChunks gs.length) = .ok chunks
      ∧ chunks.length = Aggregation.ceilChunks gs.length
      ∧ chunks.flatten = gs
      ∧ (∀ c ∈ chunks, c.length ≤ 1000)
      ∧ (gs.Nodup → chunks.Pairwise List.Disjoint) := by
  have hlpos : 0 < gs.length := List.length_pos.mpr hne
  have hnpos := ceilChunks_pos hlpos
  obtain ⟨hsplit, hlen, hflat⟩ := array_split_spec gs hnpos
  refine ⟨_, hsplit, hlen, hflat, ?_, ?_⟩
  · intro c hc
    exact splitBySizes_chunk_le hc (splitSizes_le_1000 hlpos)
  · intro hnd
    refine (List.nodup_flatten.mp ?_).2
    rw [hflat]
    exact hnd

/-- Witness for C2 at a concrete gid list. -/
theorem chunk_partition_witness :
    isOkE (Aggregation.array_split (List.range 5)
      (Aggregation.ceilChunks (List.range 5).length)) = true := by
  obtain ⟨chunks, hc, -⟩ := chunk_partition (List.range 5) (by decide)
  rw [hc]
  rfl

/-- C3: a non-empty-signal exception raised for any gid fails the whole
aggregation call — the serial path, the parallel path, and the entry point
all return an error and no partial mapping or table. -/
theorem worker_failure_propagates (env : Env) (tm : Bool) (gs : List Nat)
    (n_cores : Option Nat) (opt : String)
    (hexc : ∃ g ∈ gs, isExc (env.pointSum g) = true) :
    (∃ e, Aggregation._serial_summary env (some gs) = .error e)
    ∧ (∃ e, Aggregation._parallel_summary env (some gs) n_cores = .error e)
    ∧ (∃ e, (Aggregation.summary env tm (some gs) n_cores opt).result
        = .error e) := by
  obtain ⟨msg, hser⟩ := serialLoop_err env gs [] hexc
  obtain ⟨e, hpar⟩ := parallel_err env gs n_cores hexc
  refine ⟨⟨.pointExc msg, hser⟩, ⟨e, hpar⟩, ?_⟩
  by_cases h1 : n_cores = some 1
  · subst h1
    exact ⟨.pointExc msg,
      summary_result_of_dispatch_err (by rw [dispatch_serial]; exact hser)⟩
  · exact ⟨e,
      summary_result_of_dispatch_err (by rw [dispatch_other env _ h1]; exact hpar)⟩

/-- Witness for C3 at a concrete failing environment. -/
theorem worker_failure_propagates_witness :
    isOkE (Aggregation.summary env1 true (some [0, 1, 2]) (some 4)
      "dataframe").result = false := by
  obtain ⟨-, -, e, he⟩ := worker_failure_propagates env1 true [0, 1, 2]
    (some 4) "dataframe" (by decide)
  rw [he]
  rfl

/-- C4: an empty-point signal for a requested gid K is recovered locally:
K is omitted from the result, the call succeeds, and every other requested
gid whose summary succeeds is present — on both dispatch paths. -/
theorem empty_point_omitted (env : Env) (gs : List Nat) (K : Nat)
    (hok : ∀ g ∈ gs, isExc (env.pointSum g) = false)
    (hK : K ∈ gs) (hempty : env.pointSum K = .error .empty) :
    isOkE (Aggregation._serial_summary env (some gs)) = true
    ∧ lookupRes (Aggregation._serial_summary env (some gs)) K = none
    ∧ (∀ g ∈ gs, ∀ ps, env.pointSum g = .ok ps →
        lookupRes (Aggregation._serial_summary env (some gs)) g
          = some (injectMeta env g ps))
    ∧ isOkE (Aggregation._parallel_summary env (some gs) none) = true
    ∧ lookupRes (Aggregation._parallel_summary env (some gs) none) K = none
    ∧ (∀ g ∈ gs, ∀ ps, env.pointSum g = .ok ps →
        lookupRes (Aggregation._parallel_summary env (some gs) none) g
          = some (injectMeta env g ps)) := by
  have hne : gs ≠ [] := by
    rintro rfl
    simp at hK
  obtain ⟨s, hs, hslook, -, -⟩ := serial_spec env gs hok
  obtain ⟨p, hp, hplook, -⟩ := parallel_spec env gs none hne hok
  have hKrec : pointRecord env K = none := by simp [pointRecord, hempty]
  refine ⟨by rw [hs]; rfl, ?_, ?_, by rw [hp]; rfl, ?_, ?_⟩
  · unfold lookupRes okOr
    rw [hs, hslook K, if_neg (by simp [hKrec])]
  · intro g hg ps hps
    have hrec : pointRecord env g = some (injectMeta env g ps) := by
      simp [pointRecord, hps]
    unfold lookupRes okOr
    rw [hs, hslook g, if_pos ⟨hg, by simp [hrec]⟩, hrec]
  · unfold lookupRes okOr
    rw [hp, hplook K, if_neg (by simp [hKrec])]
  · intro g hg ps hps
    have hrec : pointRecord env g = some (injectMeta env g ps) := by
      simp [pointRecord, hps]
    unfold lookupRes okOr
    rw [hp, hplook g, if_pos ⟨hg, by simp [hrec]⟩, hrec]

/-- Witness for C4: gid 3 of `env0` is empty and omitted, gid 2 is kept. -/
theorem empty_point_omitted_witness :
    lookupRes (Aggregation._serial_summary env0 (some [0, 1, 2, 3])) 3 = none
    ∧ lookupRes (Aggregation._serial_summary env0 (some [0, 1, 2, 3])) 2
      = some (injectMeta env0 2 [("latitude", .nat 2)]) := by
  have h := empty_point_omitted env0 [0, 1, 2, 3] 3 (by decide) (by decide)
    (by decide)
  exact ⟨h.2.1, h.2.2.1 2 (by decide) _ (by decide)⟩

/-- C5 counterexample: with an explicitly empty gid list the parallel
dispatch path raises `ValueError` (from `np.array_split(gids, 0)`) and the
dataframe output format raises `KeyError` (from `set_index('sc_gid')` on an
empty frame), contradicting the claim that an empty gid set succeeds on
both dispatch paths and both output formats. -/
theorem empty_gids_counterexample :
    (Aggregation.summary env0 true (some []) (some 4) "dict").result
      = .error (.valueError "number sections must be larger than 0.")
    ∧ (Aggregation.summary env0 true (some []) (some 1) "dataframe").result
      = .error (.keyError "sc_gid") := by
  constructor <;> rfl

/-- C5 amended: an empty gid set succeeds with an empty result only on the
serial path with a non-dataframe output option; the parallel path raises
`ValueError` from the chunk split, and the dataframe conversion raises
`KeyError` on the empty frame. -/
theorem empty_gids_amended (env : Env) (tm : Bool) :
    Aggregation._serial_summary env (some []) = .ok []
    ∧ (Aggregation.summary env tm (some []) (some 1) "dict").result
        = .ok (.mapping [])
    ∧ Aggregation._parallel_summary env (some []) (some 4)
        = .error (.valueError "number sections must be larger than 0.")
    ∧ (Aggregation.summary env tm (some []) (some 4) "dict").result
        = .error (.valueError "number sections must be larger than 0.")
    ∧ (Aggregation.summary env tm (some []) (some 1) "dataframe").result
        = .error (.keyError "sc_gid") := by
  have hpar : Aggregation._parallel_summary env (some []) (some 4)
      = .error (.valueError "number sections must be larger than 0.") := by
    simp [Aggregation._parallel_summary, Aggregation.array_split,
      Aggregation.ceilChunks]
  have hser : Aggregation.dispatch env (some []) (some 1) = .ok [] := by
    rw [dispatch_serial]
    rfl
  refine ⟨rfl, rfl, hpar, ?_, ?_⟩
  · exact summary_result_of_dispatch_err
      (by rw [dispatch_other env _ (by decide)]; exact hpar)
  · rw [summary_result_df hser (by decide)]
    rfl

/-- Witness for the amended C5 at a concrete environment. -/
theorem empty_gids_amended_witness :
    Aggregation._serial_summary env0 (some []) = .ok []
    ∧ (Aggregation.summary env0 true (some []) (some 4) "dict").result
        = .error (.valueError "number sections must be larger than 0.") := by
  have h := empty_gids_amended env0 true
  exact ⟨h.1, h.2.2.2.1⟩

/-- C6: a call with a missing tech map triggers exactly one
`TechMapping.run_map` invocation, and it happens before the dispatch phase
begins; a call with the artifact already present triggers zero builds. -/
theorem techmap_build_once (env : Env) (gids : Option (List Nat))
    (n_cores : Option Nat) (opt : String) :
    (Aggregation.summary env false gids n_cores opt).events.count
        .buildTechmap = 1
    ∧ (∃ d, (Aggregation.summary env false gids n_cores opt).events
          = [.buildTechmap, d]
        ∧ (d = Aggregation.Event.dispatchSerial
            ∨ ∃ n, d = Aggregation.Event.dispatchParallel n))
    ∧ (Aggregation.summary env true gids n_cores opt).events.count
        .buildTechmap = 0 := by
  refine ⟨?_, ?_, ?_⟩
  · rw [summary_events]
    by_cases h1 : n_cores = some 1 <;> simp [h1, List.count_cons]
  · refine ⟨if n_cores = some 1 then .dispatchSerial
      else .dispatchParallel (Aggregation.resolveCores env n_cores), ?_, ?_⟩
    · rw [summary_events]
      simp
    · by_cases h1 : n_cores = some 1
      · rw [if_pos h1]
        exact Or.inl rfl
      · rw [if_neg h1]
        exact Or.inr ⟨_, rfl⟩
  · rw [summary_events]
    by_cases h1 : n_cores = some 1 <;> simp [h1, List.count_cons]

/-- Witness for C6 at a concrete environment. -/
theorem techmap_build_once_witness :
    (Aggregation.summary env0 false (some [0, 1]) (some 1) "dict").events.count
        Aggregation.Event.buildTechmap = 1
    ∧ (Aggregation.summary env0 true (some [0, 1]) (some 1) "dict").events.count
        Aggregation.Event.buildTechmap = 0 := by
  have h := techmap_build_once env0 (some [0, 1]) (some 1) "dict"
  exact ⟨h.1, h.2.2⟩

/-- C7: with the dataframe output format, the returned table is the
transpose of the gid→summary mapping re-keyed by sc_gid: each row's sc_gid
(its index) equals the gid the summary was stored under, the indices are
exactly the mapping's gids, pairwise distinct and sorted ascending. -/
theorem table_assembly (env : Env) (tm : Bool) (gs : List Nat)
    (hok : ∀ g ∈ gs, isExc (env.pointSum g) = false)
    (hsome : ∃ g ∈ gs, isOkE (env.pointSum g) = true) :
    ∃ s t, Aggregation._serial_summary env (some gs) = .ok s
      ∧ (Aggregation.summary env tm (some gs) (some 1) "dataframe").result
          = .ok (.table t)
      ∧ t.Perm (s.map (fun p => (Aggregation.rowIndex p.2,
            Aggregation.dropKey p.2 "sc_gid")))
      ∧ (∀ p ∈ s, Aggregation.rowIndex p.2 = p.1)
      ∧ (t.map Prod.fst).Perm (s.map Prod.fst)
      ∧ (t.map Prod.fst).Pairwise (fun a b => a ≤ b)
      ∧ (t.map Prod.fst).Nodup := by
  obtain ⟨s, hs, hslook, hsnd, hent⟩ := serial_spec env gs hok
  obtain ⟨g, hg, hgok⟩ := hsome
  obtain ⟨ps, hps⟩ : ∃ ps, env.pointSum g = .ok ps := by
    cases h : env.pointSum g with
    | ok ps => exact ⟨ps, rfl⟩
    | error e => rw [h] at hgok; cases hgok
  have hrec : pointRecord env g = some (injectMeta env g ps) := by
    simp [pointRecord, hps]
  have hlookg : dictLookup s g = some (injectMeta env g ps) := by
    rw [hslook g, if_pos ⟨hg, by simp [hrec]⟩, hrec]
  have hmem : (g, injectMeta env g ps) ∈ s := dictLookup_some_mem hlookg
  have hnotall : ¬ (s.all (fun p => (dictLookup p.2 "sc_gid").isNone) = true) := by
    intro hall
    have h1 := List.all_eq_true.mp hall _ hmem
    rw [hent _ hmem] at h1
    cases h1
  have hsis : Aggregation.set_index_sort s
      = .ok (Aggregation.sortRows (s.map (fun p => (Aggregation.rowIndex p.2,
          Aggregation.dropKey p.2 "sc_gid")))) := by
    unfold Aggregation.set_index_sort
    rw [if_neg hnotall]
  have hentry : ∀ p ∈ s, Aggregation.rowIndex p.2 = p.1 := by
    intro p hp
    unfold Aggregation.rowIndex
    rw [hent p hp]
  have hperm : (Aggregation.sortRows (s.map (fun p => (Aggregation.rowIndex p.2,
      Aggregation.dropKey p.2 "sc_gid")))).Perm
        (s.map (fun p => (Aggregation.rowIndex p.2,
          Aggregation.dropKey p.2 "sc_gid"))) := sortRows_perm _
  have hkeys : (s.map (fun p => (Aggregation.rowIndex p.2,
      Aggregation.dropKey p.2 "sc_gid"))).map Prod.fst = s.map Prod.fst := by
    rw [List.map_map]
    exact List.map_congr_left (fun p hp => hentry p hp)
  have hkeysperm : ((Aggregation.sortRows (s.map (fun p =>
      (Aggregation.rowIndex p.2, Aggregation.dropKey p.2 "sc_gid")))).map
        Prod.fst).Perm (s.map Prod.fst) := by
    rw [← hkeys]
    exact hperm.map _
  refine ⟨s, _, hs, ?_, hperm, hentry, hkeysperm, ?_, ?_⟩
  · rw [summary_result_df (by rw [dispatch_serial]; exact hs) (by decide), hsis]
  · exact List.pairwise_map.mpr (sorted_sortRows _)
  · exact hkeysperm.symm.nodup hsnd

/-- Witness for C7 at a concrete environment. -/
theorem table_assembly_witness :
    isOkE (Aggregation.summary env0 true (some [0, 1, 2, 3]) (some 1)
      "dataframe").result = true := by
  obtain ⟨s, t, -, hres, -⟩ := table_assembly env0 true [0, 1, 2, 3]
    (by decide) (by decide)
  rw [hres]
  rfl

section SummarizerLemmas

theorem summaryLoop_lookup (point : String → Val) (args : List String)
    (acc : PointSummary) (w : Nat) (a : String) :
    dictLookup (SupplyCurvePointSummary.summaryLoop point args acc w).1 a
      = if a ∈ args ∧ a ∈ SupplyCurvePointSummary.ARGS_keys then some (point a)
        else dictLookup acc a := by
  induction args generalizing acc w with
  | nil => simp [SupplyCurvePointSummary.summaryLoop]
  | cons arg rest ih =>
    unfold SupplyCurvePointSummary.summaryLoop
    by_cases hrec : arg ∈ SupplyCurvePointSummary.ARGS_keys
    · rw [if_pos hrec, ih]
      by_cases hk : a ∈ rest ∧ a ∈ SupplyCurvePointSummary.ARGS_keys
      · rw [if_pos hk, if_pos ⟨List.mem_cons_of_mem _ hk.1, hk.2⟩]
      · rw [if_neg hk, dictLookup_dictInsert]
        by_cases hag : a = arg
        · subst hag
          rw [if_pos rfl, if_pos ⟨List.mem_cons_self _ _, hrec⟩]
        · rw [if_neg hag, if_neg ?_]
          intro hcon
          rcases List.mem_cons.mp hcon.1 with h1 | h1
          · exact hag h1
          · exact hk ⟨h1, hcon.2⟩
    · rw [if_neg hrec, ih]
      by_cases hk : a ∈ rest ∧ a ∈ SupplyCurvePointSummary.ARGS_keys
      · rw [if_pos hk, if_pos ⟨List.mem_cons_of_mem _ hk.1, hk.2⟩]
      · rw [if_neg hk, if_neg ?_]
        intro hcon
        rcases List.mem_cons.mp hcon.1 with h1 | h1
        · subst h1
          exact hrec hcon.2
        · exact hk ⟨h1, hcon.2⟩

theorem summaryLoop_warns (point : String → Val) (args : List String)
    (acc : PointSummary) (w : Nat) :
    (SupplyCurvePointSummary.summaryLoop point args acc w).2
      = w + args.countP
          (fun a => decide (a ∉ SupplyCurvePointSummary.ARGS_keys)) := by
  induction args generalizing acc w with
  | nil => simp [SupplyCurvePointSummary.summaryLoop]
  | cons arg rest ih =>
    unfold SupplyCurvePointSummary.summaryLoop
    by_cases hrec : arg ∈ SupplyCurvePointSummary.ARGS_keys
    · rw [if_pos hrec, ih, List.countP_cons]
      simp [hrec]
    · rw [if_neg hrec, ih, List.countP_cons]
      simp [hrec]
      omega

end SummarizerLemmas

/-- C8: requested attribute names outside {resource_gids, gen_gids,
latitude, longitude} are omitted from the returned summary with one
non-fatal warning each (the call still succeeds and returns), and the
summary's keys are exactly the recognized requested names. -/
theorem unrecognized_attrs_dropped (point : String → Val) (args : List String) :
    (∀ a, a ∈ (SupplyCurvePointSummary.summary point (some args)).1.map Prod.fst
        ↔ a ∈ args ∧ a ∈ SupplyCurvePointSummary.ARGS_keys)
    ∧ (∀ a ∈ args, a ∈ SupplyCurvePointSummary.ARGS_keys →
        dictLookup (SupplyCurvePointSummary.summary point (some args)).1 a
          = some (point a))
    ∧ (SupplyCurvePointSummary.summary point (some args)).2
        = args.countP
            (fun a => decide (a ∉ SupplyCurvePointSummary.ARGS_keys)) := by
  refine ⟨?_, ?_, ?_⟩
  · intro a
    rw [← not_iff_not, ← dictLookup_eq_none]
    unfold SupplyCurvePointSummary.summary
    rw [summaryLoop_lookup, Option.getD_some]
    by_cases hk : a ∈ args ∧ a ∈ SupplyCurvePointSummary.ARGS_keys
    · rw [if_pos hk]
      simp [hk]
    · rw [if_neg hk]
      simp [dictLookup, hk]
  · intro a ha hrec
    unfold SupplyCurvePointSummary.summary
    rw [summaryLoop_lookup, Option.getD_some, if_pos ⟨ha, hrec⟩]
  · unfold SupplyCurvePointSummary.summary
    rw [summaryLoop_warns, Option.getD_some, Nat.zero_add]

/-- Witness for C8: request two recognized names and one bogus name. -/
theorem unrecognized_attrs_dropped_witness :
    dictLookup (SupplyCurvePointSummary.summary point0
        (some ["latitude", "bogus", "gen_gids"])).1 "latitude"
      = some (point0 "latitude")
    ∧ (SupplyCurvePointSummary.summary point0
        (some ["latitude", "bogus", "gen_gids"])).2 = 1
    ∧ "bogus" ∉ (SupplyCurvePointSummary.summary point0
        (some ["latitude", "bogus", "gen_gids"])).1.map Prod.fst := by
  have h := unrecognized_attrs_dropped point0 ["latitude", "bogus", "gen_gids"]
  refine ⟨h.2.1 "latitude" (by decide) (by decide), ?_, ?_⟩
  · rw [h.2.2]
    decide
  · intro hc
    exact absurd ((h.1 "bogus").mp hc).2 (by decide)

/-- C9 (claimed intent vs code): in `SAM.execute` a failing `module_exec`
raises `SAMExecutionError` immediately and unconditionally; the
log-collection statements that follow the raise are dead code, so the call
outcome never depends on `module_log` and the raised message is the bare
format message without any engine diagnostic line appended. -/
theorem sam_execute_dead_log_collection (exec : String → Bool)
    (logs logs' : String → Nat → Option String) (site : Nat)
    (ms : List String) (m : String) (hfail : exec m = false) :
    SAM.execute ⟨exec, logs⟩ site ms = SAM.execute ⟨exec, logs'⟩ site ms
    ∧ SAM.execute ⟨exec, logs⟩ site [m]
        = .error (.samError (SAM.execModuleMsg m site)) := by
  constructor
  · induction ms with
    | nil => rfl
    | cons x xs ih =>
      unfold SAM.execute
      by_cases hx : exec x = true <;> simp [hx, ih]
  · unfold SAM.execute
    simp [hfail]

/-- Witness for C9: one failing module with a non-empty diagnostic log;
the raised message is independent of the log contents. -/
theorem sam_execute_dead_log_collection_witness :
    SAM.execute ⟨fun _ => false, fun _ _ => some "engine diagnostic"⟩ 7
        ["pvwattsv5"]
      = .error (.samError (SAM.execModuleMsg "pvwattsv5" 7)) :=
  (sam_execute_dead_log_collection (fun _ => false)
    (fun _ _ => some "engine diagnostic") (fun _ _ => none) 7
    ["pvwattsv5"] "pvwattsv5" rfl).2

/-- C10: the merged mapping is converted to a table iff the option string
contains "dataframe" case-insensitively; any other option value, including
the advertised 'table' and 'mapping', returns the merged gid-keyed mapping
unchanged with no error. -/
theorem output_option_dataframe_iff (env : Env) (tm : Bool)
    (gids : Option (List Nat)) (n_cores : Option Nat) (opt : String) (m : Dict)
    (hm : Aggregation.dispatch env gids n_cores = .ok m) :
    ((Aggregation.summary env tm gids n_cores opt).result = .ok (.mapping m)
      ↔ Aggregation.wantsDataframe opt = false)
    ∧ Aggregation.wantsDataframe "table" = false
    ∧ Aggregation.wantsDataframe "mapping" = false
    ∧ Aggregation.wantsDataframe "dataframe" = true
    ∧ Aggregation.wantsDataframe "DataFrame" = true := by
  refine ⟨⟨?_, ?_⟩, by decide, by decide, by decide, by decide⟩
  · intro hres
    by_contra hdf
    have hdf' : Aggregation.wantsDataframe opt = true := by
      cases h : Aggregation.wantsDataframe opt
      · exact absurd h hdf
      · rfl
    rw [summary_result_df hm hdf'] at hres
    cases hsis : Aggregation.set_index_sort m with
    | error e =>
      rw [hsis] at hres
      cases hres
    | ok t =>
      rw [hsis] at hres
      simp at hres
  · intro hdf
    exact summary_result_mapping hm hdf

/-- Witness for C10: the 'table' option returns the mapping unchanged. -/
theorem output_option_dataframe_iff_witness :
    (Aggregation.summary env0 true (some [0, 1]) (some 1) "table").result
      = .ok (.mapping (okOr (Aggregation.dispatch env0 (some [0, 1]) (some 1)))) := by
  have h := output_option_dataframe_iff env0 true (some [0, 1]) (some 1)
    "table" (okOr (Aggregation.dispatch env0 (some [0, 1]) (some 1))) (by rfl)
  exact h.1.mpr (by decide)

end ReV
